import Mathlib

/-!
Shallow embedding of `nuimages_dataset.py` (class `NuImagesDataset` and the
helper `get_instance_mask`), the dataset-to-training-sample adaptation layer
of the repository, together with proofs checking the specification's claims.

Modelling conventions:
* nuImages record tokens are opaque strings ordered lexicographically; we model
  them as `Nat` with its order (only a decidable linear order on identifiers
  is ever used by the code).
* An encoded mask together with the external `mask_decode` codec is modelled
  by its decoded binary pixel array, as a function `Nat → Nat → Bool`
  (the codec itself is an external collaborator, out of scope).
* `numpy` integer layers are modelled as functions `Nat → Nat → Nat`; tensors
  of per-row data are modelled as Lean lists, with the (H, W) dimensions of
  the mask tensor recorded explicitly in the `Target`.
* Bounding-box coordinates are numeric; the code only subtracts, multiplies
  and order-compares them, so they are modelled as `Int` (no claim depends on
  fractional values, and `Int` keeps every definition kernel-computable).
* A Python `dict` is modelled as a function into `Option`; a `KeyError` on
  lookup corresponds to `none`, and `getitem` returns `Option` so that a
  raised error is `none`.
* Opening the image file (`Image.open(...).convert("RGB")`) is modelled by a
  total function `imageFor` from the sample-data token to the decoded image;
  I/O failure is out of scope for the claims treated here.
-/

namespace NuSeg

/-- A decoded binary instance mask: `m y x` tells whether pixel (row y, col x)
belongs to the instance.  Models `mask_decode(ann['mask'])`. -/
abbrev DecodedMask := Nat → Nat → Bool

/-- Bounding box `[xmin, ymin, xmax, ymax]` as stored in `object_ann['bbox']`. -/
structure Box where
  xmin : Int
  ymin : Int
  xmax : Int
  ymax : Int
deriving DecidableEq

instance : Inhabited Box := ⟨⟨0, 0, 0, 0⟩⟩

/-- One record of the `object_ann` table. `mask` is the (optional) encoded
mask, represented by its decoding. -/
structure ObjAnn where
  token : Nat
  sample_data_token : Nat
  category_token : Nat
  bbox : Box
  mask : Option DecodedMask

instance : Inhabited ObjAnn := ⟨⟨0, 0, 0, default, none⟩⟩

/-- One record of the `sample` table (only the field the code reads). -/
structure SampleRec where
  key_camera_token : Nat
deriving DecidableEq

instance : Inhabited SampleRec := ⟨⟨0⟩⟩

/-- One record of the `category` table. -/
structure Category where
  token : Nat
  name : String
deriving DecidableEq

/-- An RGB image as obtained from `Image.open(...)`; `image.size` is
`(width, height)`. -/
structure Img where
  width : Nat
  height : Nat
deriving DecidableEq

/-- The `NuImages` devkit object, restricted to the tables and lookups that
`nuimages_dataset.py` reads.  `imageFor t` models
`Image.open(root_path / nuimages.get('sample_data', t)['filename'])`. -/
structure NuImagesTbl where
  sample : List SampleRec
  object_ann : List ObjAnn
  category : List Category
  imageFor : Nat → Img

/-- The target dictionary built by `__getitem__`.  `masksH`/`masksW` record
the trailing (H, W) dimensions of the `masks` tensor. -/
structure Target where
  boxes : List Box
  labels : List Nat
  masks : List DecodedMask
  masksH : Nat
  masksW : Nat
  image_id : Nat
  area : List Int
  iscrowd : List Nat

/-- The optional `transforms` hook: `transforms(image, target)`. -/
abbrev Transforms := Img → Target → Img × Target

/-- `w > 0 and h > 0` for `w = b[2]-b[0]`, `h = b[3]-b[1]`
(`NuImagesDataset.__init__`, the degenerate-box filter). -/
def validBox (o : ObjAnn) : Bool :=
  decide (0 < o.bbox.xmax - o.bbox.xmin) && decide (0 < o.bbox.ymax - o.bbox.ymin)

/-- One iteration of the `object_anns_dict` build loop: the key is created on
first sight of the sample-data token, and the annotation is appended only if
its box has positive width and height. -/
def annsDictStep (d : Nat → Option (List ObjAnn)) (o : ObjAnn) :
    Nat → Option (List ObjAnn) :=
  let cur := (d o.sample_data_token).getD []
  let cur' := if validBox o then cur ++ [o] else cur
  fun t => if t = o.sample_data_token then some cur' else d t

/-- `self.object_anns_dict`: groups `object_ann` records by their
`sample_data_token`, dropping zero-width/height boxes; a token that never
occurs in `object_ann` is absent from the dict (lookup raises `KeyError`,
modelled as `none`). -/
def buildObjectAnnsDict (anns : List ObjAnn) : Nat → Option (List ObjAnn) :=
  anns.foldl annsDictStep (fun _ => none)

/-- `self._cat_token_to_label`: maps a category token to
`CLASS_TO_ID[NAME_MAPPING[name]]`, or `none` when the fine category name is
absent from `NAME_MAPPING`.  The tables `NAME_MAPPING` and `CLASS_TO_ID` live
in `utils/utils.py` and are passed in as parameters `nameMapping`/`classToId`.
The only use site is `dict.get(token)`, which also returns `None` for a token
that is not a key, so the two `None` sources are merged into one `Option`. -/
def buildCatTokenToLabel (cats : List Category)
    (nameMapping : String → Option String) (classToId : String → Nat) :
    Nat → Option Nat :=
  cats.foldl
    (fun d c => fun t =>
      if t = c.token then (nameMapping c.name).map classToId else d t)
    (fun _ => none)

/-- The set built by the first loop of `__init__`:
`sd_tokens_with_objects`, the sample-data tokens of all raw object
annotations (no box-validity filter). -/
def sdTokensWithObjects (anns : List ObjAnn) : Finset Nat :=
  anns.foldl (fun s o => insert o.sample_data_token s) ∅

/-- The `for i, sample in enumerate(self.nuimages.sample)` loop that collects
the indices whose key-camera token is in `sd_tokens_with_objects`, starting
the enumeration at `i`. -/
def swoLoop (T : Finset Nat) : Nat → List SampleRec → List Nat
  | _, [] => []
  | i, s :: rest =>
    if s.key_camera_token ∈ T then i :: swoLoop T (i + 1) rest
    else swoLoop T (i + 1) rest

/-- `self.samples_with_objects` as computed by `__init__`. -/
def buildSamplesWithObjects (env : NuImagesTbl) (remove_empty has_ann : Bool) :
    List Nat :=
  if remove_empty && has_ann then
    swoLoop (sdTokensWithObjects env.object_ann) 0 env.sample
  else
    List.range env.sample.length

/-- The state of a `NuImagesDataset` object right after `__init__` (the two
lazy caches are modelled separately, in `CacheState`). -/
structure Dataset where
  has_ann : Bool
  transforms : Option Transforms
  samples_with_objects : List Nat
  object_anns_dict : Nat → Option (List ObjAnn)
  cat_token_to_label : Nat → Option Nat

/-- `NuImagesDataset.__init__`. -/
def mkDataset (env : NuImagesTbl) (nameMapping : String → Option String)
    (classToId : String → Nat) (transforms : Option Transforms)
    (remove_empty : Bool) : Dataset :=
  let has_ann := !env.object_ann.isEmpty
  { has_ann := has_ann
    transforms := transforms
    samples_with_objects := buildSamplesWithObjects env remove_empty has_ann
    object_anns_dict := buildObjectAnnsDict env.object_ann
    cat_token_to_label :=
      buildCatTokenToLabel env.category nameMapping classToId }

/-- `NuImagesDataset.__len__`. -/
def datasetLen (ds : Dataset) : Nat :=
  ds.samples_with_objects.length

/-- The `for i, ann in enumerate(object_anns)` loop of the kept-annotation
computation in `__getitem__`: collects `(kept_indices, kept_labels)`,
enumerating from `i`. -/
def keptFrom (ct2l : Nat → Option Nat) : Nat → List ObjAnn → List Nat × List Nat
  | _, [] => ([], [])
  | i, a :: rest =>
    let r := keptFrom ct2l (i + 1) rest
    match ct2l a.category_token with
    | some l => (i :: r.1, l :: r.2)
    | none => r

/-- Stable insertion of an annotation into a token-sorted list, placing it
before the first strictly larger token (so equal tokens keep input order). -/
def insertByToken (a : ObjAnn) : List ObjAnn → List ObjAnn
  | [] => [a]
  | b :: rest =>
    if b.token < a.token then b :: insertByToken a rest else a :: b :: rest

/-- `sorted(object_anns, key=lambda k: k['token'])`: Python's `sorted` is a
stable sort by key; any stable sort computes the same list, so it is embedded
as a stable insertion sort on the token. -/
def sortByToken : List ObjAnn → List ObjAnn
  | [] => []
  | a :: rest => insertByToken a (sortByToken rest)

/-- One step of the drawing loop of `get_instance_mask`: for annotation `a`
at 1-based position `i`, `instanceseg_mask[mask == 1] = i` (or no write when
the encoded mask is absent). -/
def paintOne (i : Nat) (a : ObjAnn) (L : Nat → Nat → Nat) : Nat → Nat → Nat :=
  match a.mask with
  | none => L
  | some m => fun y x => if m y x then i else L y x

/-- The `for i, ann in enumerate(object_anns, start=1)` drawing loop of
`get_instance_mask`, beginning at index `i`. -/
def paintFrom (i : Nat) : List ObjAnn → (Nat → Nat → Nat) → Nat → Nat → Nat
  | [], L => L
  | a :: rest, L => paintFrom (i + 1) rest (paintOne i a L)

/-- `get_instance_mask(nuimages, image, object_anns)`.  The category-name
lookup performed inside the loop is dead code (its result is unused; a broken
category reference, which would abort in Python, is outside this model), so
only the drawing loop is significant. -/
def get_instance_mask (nuimages : NuImagesTbl) (image : Img)
    (object_anns : List ObjAnn) : Nat → Nat → Nat :=
  let _size := (image.width, image.height)
  let _unused_names :=
    object_anns.map (fun a =>
      (nuimages.category.find? (fun c => c.token == a.category_token)).map
        Category.name)
  let sortedAnns := sortByToken object_anns
  paintFrom 1 sortedAnns (fun _ _ => 0)

/-- The empty target built by the `if not kept_indices` branch of
`__getitem__` (`w, h = image.size`). -/
def emptyTarget (image : Img) (idx : Nat) : Target :=
  { boxes := []
    labels := []
    masks := []
    masksH := image.height
    masksW := image.width
    image_id := idx
    area := []
    iscrowd := [] }

/-- The non-empty target built by the tail of `__getitem__` from the filtered
annotation list, the kept indices/labels and the instance-mask layer. -/
def mainTarget (image : Img) (idx : Nat) (object_anns : List ObjAnn)
    (kept_indices : List Nat) (kept_labels : List Nat)
    (instance_mask : Nat → Nat → Nat) : Target :=
  let kept_boxes := kept_indices.map (fun i => (object_anns.getD i default).bbox)
  let boxes := kept_boxes
  let labels := kept_labels
  let masks : List DecodedMask :=
    kept_indices.map (fun i => fun y x => instance_mask y x == i + 1)
  let area :=
    if boxes = [] then []
    else boxes.map (fun b => (b.ymax - b.ymin) * (b.xmax - b.xmin))
  let iscrowd := List.replicate object_anns.length 0
  { boxes := boxes
    labels := labels
    masks := masks
    masksH := image.height
    masksW := image.width
    image_id := idx
    area := area
    iscrowd := iscrowd }

/-- Apply the optional `transforms` hook and package the return value of
`__getitem__`. -/
def finishTarget (tr : Option Transforms) (image : Img) (target : Target) :
    Option (Img × Option Target) :=
  match tr with
  | none => some (image, some target)
  | some f =>
    let r := f image target
    some (r.1, some r.2)

/-- `NuImagesDataset.__getitem__`, as a pure function of the constructed
dataset state (caches are handled by `getitemSt` below; this is the value
every cache-consistent run computes).  `none` models a raised error
(`IndexError` on a bad index, `KeyError` on the `object_anns_dict` lookup). -/
def getitemPure (ds : Dataset) (env : NuImagesTbl) (idx : Nat) :
    Option (Img × Option Target) :=
  match ds.samples_with_objects.get? idx with
  | none => none
  | some si =>
    match env.sample.get? si with
    | none => none
    | some sample =>
      let sd_token := sample.key_camera_token
      let image := env.imageFor sd_token
      if ds.has_ann = false then some (image, none)
      else
        match ds.object_anns_dict sd_token with
        | none => none
        | some object_anns =>
          let kp := keptFrom ds.cat_token_to_label 0 object_anns
          if kp.1 = [] then
            finishTarget ds.transforms image (emptyTarget image idx)
          else
            let instance_mask := get_instance_mask env image object_anns
            finishTarget ds.transforms image
              (mainTarget image idx object_anns kp.1 kp.2 instance_mask)

/-- The two lazy per-image caches of a `NuImagesDataset` object:
`self._kept_cache` and `self._inst_mask_cache`. -/
structure CacheState where
  kept_cache : Nat → Option (List Nat × List Nat)
  inst_mask_cache : Nat → Option (Nat → Nat → Nat)

/-- The caches as initialised by `__init__` (both empty). -/
def initCache : CacheState :=
  { kept_cache := fun _ => none, inst_mask_cache := fun _ => none }

/-- The kept-cache step of `__getitem__`:
`kept = self._kept_cache.get(sd_token); if kept is None: ... ; else: ...`,
returning the `(kept_indices, kept_labels)` pair and the updated cache. -/
def keptCached (ds : Dataset) (s : CacheState) (sd_token : Nat)
    (object_anns : List ObjAnn) : (List Nat × List Nat) × CacheState :=
  match s.kept_cache sd_token with
  | none =>
    let k := keptFrom ds.cat_token_to_label 0 object_anns
    (k, { s with kept_cache :=
            fun t => if t = sd_token then some k else s.kept_cache t })
  | some k => (k, s)

/-- The instance-mask-cache step of `__getitem__`:
`instance_mask = self._inst_mask_cache.get(sd_token); if ... is None: ...`. -/
def maskCached (env : NuImagesTbl) (s : CacheState) (sd_token : Nat)
    (image : Img) (object_anns : List ObjAnn) :
    (Nat → Nat → Nat) × CacheState :=
  match s.inst_mask_cache sd_token with
  | none =>
    let m := get_instance_mask env image object_anns
    (m, { s with inst_mask_cache :=
            fun t => if t = sd_token then some m else s.inst_mask_cache t })
  | some m => (m, s)

/-- `NuImagesDataset.__getitem__` with the two caches made explicit:
reads the cache, computes and stores on a miss. -/
def getitemSt (ds : Dataset) (env : NuImagesTbl) (s : CacheState) (idx : Nat) :
    Option (Img × Option Target) × CacheState :=
  match ds.samples_with_objects.get? idx with
  | none => (none, s)
  | some si =>
    match env.sample.get? si with
    | none => (none, s)
    | some sample =>
      let sd_token := sample.key_camera_token
      let image := env.imageFor sd_token
      if ds.has_ann = false then (some (image, none), s)
      else
        match ds.object_anns_dict sd_token with
        | none => (none, s)
        | some object_anns =>
          let kpS := keptCached ds s sd_token object_anns
          let kp := kpS.1
          let s1 := kpS.2
          if kp.1 = [] then
            (finishTarget ds.transforms image (emptyTarget image idx), s1)
          else
            let imS := maskCached env s1 sd_token image object_anns
            (finishTarget ds.transforms image
              (mainTarget image idx object_anns kp.1 kp.2 imS.1), imS.2)

/-- Cache consistency: every populated cache entry equals the value that
`__getitem__` would recompute for that key from the immutable index. -/
def Consistent (ds : Dataset) (env : NuImagesTbl) (s : CacheState) : Prop :=
  (∀ t v, s.kept_cache t = some v →
    ∀ anns, ds.object_anns_dict t = some anns →
      v = keptFrom ds.cat_token_to_label 0 anns) ∧
  (∀ t m, s.inst_mask_cache t = some m →
    ∀ anns, ds.object_anns_dict t = some anns →
      m = get_instance_mask env (env.imageFor t) anns)

/-- Specification view of one bucket of `object_anns_dict`: the annotations
with the given sample-data token, in input order, with degenerate boxes
dropped. -/
def validAnnsFor (t : Nat) (anns : List ObjAnn) : List ObjAnn :=
  (anns.filter (fun o => o.sample_data_token == t)).filter validBox

/-- Whether annotation `a` has a present encoded mask that covers pixel
`(y, x)` — i.e. whether the drawing loop writes this pixel for `a`. -/
def coversB (a : ObjAnn) (y x : Nat) : Bool :=
  match a.mask with
  | none => false
  | some m => m y x

/-- 0-based position of the last annotation in the list whose mask covers
`(y, x)`, if any: the last writer of that pixel in the drawing loop. -/
def lastCover : List ObjAnn → Nat → Nat → Option Nat
  | [], _, _ => none
  | a :: rest, y, x =>
    match lastCover rest y x with
    | some k => some (k + 1)
    | none => if coversB a y x then some 0 else none

/-- Token order on annotations (non-strict). -/
abbrev tokLE (a b : ObjAnn) : Prop := a.token ≤ b.token

/-- Token order on annotations (strict). -/
abbrev tokLT (a b : ObjAnn) : Prop := a.token < b.token

instance : IsAntisymm ObjAnn tokLT :=
  ⟨fun _ _ h h' => absurd h' (Nat.lt_asymm h)⟩

/-- Target component of a `__getitem__` result, when one was produced. -/
def gotTarget (r : Option (Img × Option Target)) : Option Target :=
  r.bind (fun p => p.2)

/- ### Concrete fixtures used to evaluate the code on specific inputs -/

/-- A name table mapping every fine category name to one coarse class. -/
def nmAll : String → Option String := fun _ => some "car"

/-- A name table mapping no fine category name (everything unmapped). -/
def nmNone : String → Option String := fun _ => none

/-- A name table mapping only the fine name "car". -/
def nmCar : String → Option String :=
  fun n => if n = "car" then some "car" else none

/-- A class-to-id table sending every coarse class to label 1. -/
def cidOne : String → Nat := fun _ => 1

/-- C1 fixture: sample 0 (token 10) owns no raw annotation; sample 1
(token 20) owns one, so the dataset is not annotation-free. -/
def c1ann : ObjAnn :=
  { token := 1, sample_data_token := 20, category_token := 7,
    bbox := ⟨0, 0, 1, 1⟩, mask := none }

def c1env : NuImagesTbl :=
  { sample := [⟨10⟩, ⟨20⟩], object_ann := [c1ann], category := [],
    imageFor := fun _ => ⟨4, 3⟩ }

def c1ds : Dataset := mkDataset c1env nmAll cidOne none false

/-- C2 fixture: one image (token 10), two mapped annotations whose input
order ([token 2, token 1]) differs from token-sorted order; disjoint
decoded masks on a 2×1 image. -/
def c2A : ObjAnn :=
  { token := 2, sample_data_token := 10, category_token := 7,
    bbox := ⟨0, 0, 1, 1⟩, mask := some (fun y x => y == 0 && x == 0) }

def c2B : ObjAnn :=
  { token := 1, sample_data_token := 10, category_token := 7,
    bbox := ⟨1, 0, 2, 1⟩, mask := some (fun y x => y == 0 && x == 1) }

def c2env : NuImagesTbl :=
  { sample := [⟨10⟩], object_ann := [c2A, c2B], category := [⟨7, "car"⟩],
    imageFor := fun _ => ⟨2, 1⟩ }

def c2ds : Dataset := mkDataset c2env nmAll cidOne none true

/-- C3 fixture: one image, two valid-box annotations, the first of an
unmapped category and the second mapped. -/
def c3A : ObjAnn :=
  { token := 1, sample_data_token := 10, category_token := 7,
    bbox := ⟨0, 0, 1, 1⟩, mask := none }

def c3B : ObjAnn :=
  { token := 2, sample_data_token := 10, category_token := 8,
    bbox := ⟨1, 0, 2, 1⟩, mask := some (fun y x => y == 0 && x == 1) }

def c3env : NuImagesTbl :=
  { sample := [⟨10⟩], object_ann := [c3A, c3B],
    category := [⟨7, "junk"⟩, ⟨8, "car"⟩], imageFor := fun _ => ⟨2, 1⟩ }

def c3ds : Dataset := mkDataset c3env nmCar cidOne none true

/-- C4 fixture: two annotations with distinct tokens and disjoint masks. -/
def c4a : ObjAnn :=
  { token := 2, sample_data_token := 10, category_token := 7,
    bbox := ⟨0, 0, 1, 1⟩, mask := some (fun y x => y == 0 && x == 0) }

def c4b : ObjAnn :=
  { token := 1, sample_data_token := 10, category_token := 7,
    bbox := ⟨1, 0, 2, 1⟩, mask := some (fun y x => y == 0 && x == 1) }

def c4env : NuImagesTbl :=
  { sample := [⟨10⟩], object_ann := [c4a, c4b], category := [],
    imageFor := fun _ => ⟨2, 1⟩ }

/-- C5 fixture: two annotations, tokens already sorted, masks overlapping at
pixel (0, 0). -/
def c5a : ObjAnn :=
  { token := 1, sample_data_token := 10, category_token := 7,
    bbox := ⟨0, 0, 2, 1⟩, mask := some (fun y x => y == 0 && (x == 0 || x == 1)) }

def c5b : ObjAnn :=
  { token := 2, sample_data_token := 10, category_token := 7,
    bbox := ⟨0, 0, 1, 1⟩, mask := some (fun y x => y == 0 && x == 0) }

def c5anns : List ObjAnn := [c5a, c5b]

def c5env : NuImagesTbl :=
  { sample := [⟨10⟩], object_ann := c5anns, category := [],
    imageFor := fun _ => ⟨2, 1⟩ }

/-- C6 fixture: three annotations with increasing tokens; the middle one has
no encoded mask. -/
def c6a1 : ObjAnn :=
  { token := 1, sample_data_token := 10, category_token := 7,
    bbox := ⟨0, 0, 1, 1⟩, mask := some (fun y x => y == 0 && x == 0) }

def c6a2 : ObjAnn :=
  { token := 2, sample_data_token := 10, category_token := 7,
    bbox := ⟨1, 0, 2, 1⟩, mask := none }

def c6a3 : ObjAnn :=
  { token := 3, sample_data_token := 10, category_token := 7,
    bbox := ⟨2, 0, 3, 1⟩, mask := some (fun y x => y == 0 && x == 2) }

def c6anns : List ObjAnn := [c6a1, c6a2, c6a3]

/-- The mask substituted for the absent one in the C6 witness. -/
def c6mNew : DecodedMask := fun y x => y == 0 && x == 1

def c6env : NuImagesTbl :=
  { sample := [⟨10⟩], object_ann := c6anns, category := [],
    imageFor := fun _ => ⟨3, 1⟩ }

/-- C7 fixture: one image owning one valid mapped annotation. -/
def c7ann : ObjAnn :=
  { token := 1, sample_data_token := 10, category_token := 7,
    bbox := ⟨0, 0, 1, 1⟩, mask := some (fun y x => y == 0 && x == 0) }

def c7env : NuImagesTbl :=
  { sample := [⟨10⟩], object_ann := [c7ann], category := [⟨7, "car"⟩],
    imageFor := fun _ => ⟨2, 1⟩ }

def c7ds : Dataset := mkDataset c7env nmAll cidOne none true

/-- C8 counterexample fixture: sample 0 (token 30) owns no raw annotation,
sample 1 (token 40) owns one; `remove_empty = false`. -/
def c8ann : ObjAnn :=
  { token := 1, sample_data_token := 40, category_token := 7,
    bbox := ⟨0, 0, 1, 1⟩, mask := none }

def c8env : NuImagesTbl :=
  { sample := [⟨30⟩, ⟨40⟩], object_ann := [c8ann], category := [],
    imageFor := fun _ => ⟨4, 3⟩ }

def c8ds : Dataset := mkDataset c8env nmAll cidOne none false

/-- C8 witness fixture: one image owning one valid annotation whose category
is unmapped. -/
def c8wann : ObjAnn :=
  { token := 1, sample_data_token := 10, category_token := 7,
    bbox := ⟨0, 0, 1, 1⟩, mask := none }

def c8wenv : NuImagesTbl :=
  { sample := [⟨10⟩], object_ann := [c8wann], category := [⟨7, "junk"⟩],
    imageFor := fun _ => ⟨5, 4⟩ }

/-- C9 fixture (spec scenario A, sharpened): three images; token 10 owns only
a degenerate-box annotation (still counted: the check is on raw annotations),
token 20 owns none, token 30 owns a valid annotation. -/
def c9degen : ObjAnn :=
  { token := 1, sample_data_token := 10, category_token := 7,
    bbox := ⟨10, 10, 5, 20⟩, mask := none }

def c9valid : ObjAnn :=
  { token := 2, sample_data_token := 30, category_token := 7,
    bbox := ⟨0, 0, 1, 1⟩, mask := none }

def c9env : NuImagesTbl :=
  { sample := [⟨10⟩, ⟨20⟩, ⟨30⟩], object_ann := [c9degen, c9valid],
    category := [⟨7, "car"⟩], imageFor := fun _ => ⟨4, 3⟩ }

/-- C10 fixture: two images, no object annotations at all (test split). -/
def c10env : NuImagesTbl :=
  { sample := [⟨10⟩, ⟨20⟩], object_ann := [], category := [],
    imageFor := fun _ => ⟨4, 3⟩ }

/-- A non-trivial transform hook, configured in the C10 witness to show the
hook is not invoked in test-split mode (it would replace the image). -/
def c10tr : Transforms := fun _ t => (⟨0, 0⟩, t)

/- ### Characterization of the `object_anns_dict` build -/

theorem annsDict_foldl_eq (anns : List ObjAnn) :
    ∀ (d : Nat → Option (List ObjAnn)) (t : Nat),
      anns.foldl annsDictStep d t =
        if anns.any (fun o => o.sample_data_token == t)
        then some ((d t).getD [] ++ validAnnsFor t anns)
        else d t := by
  induction anns with
  | nil => intro d t; simp [validAnnsFor]
  | cons o rest ih =>
    intro d t
    rw [List.foldl_cons, ih]
    by_cases hot : o.sample_data_token = t
    · have hda : (annsDictStep d o) t
          = some ((d t).getD [] ++ (if validBox o then [o] else [])) := by
        simp [annsDictStep, hot]
        by_cases hv : validBox o <;> simp [hv]
      have hvf : validAnnsFor t (o :: rest)
          = (if validBox o then [o] else []) ++ validAnnsFor t rest := by
        simp only [validAnnsFor, List.filter_cons, hot]
        by_cases hv : validBox o <;> simp [hv]
      by_cases hr : rest.any (fun o => o.sample_data_token == t)
      · simp [hr, hot, hda, hvf, List.append_assoc]
      · have hvr : validAnnsFor t rest = [] := by
          simp only [validAnnsFor]
          have hf : rest.filter (fun o => o.sample_data_token == t) = [] := by
            rw [List.filter_eq_nil_iff]
            intro a ha hc
            exact hr (List.any_eq_true.mpr ⟨a, ha, hc⟩)
          rw [hf]; rfl
        simp [hr, hot, hda, hvf, hvr]
    · have hda : (annsDictStep d o) t = d t := by
        simp [annsDictStep, Ne.symm hot]
      have hvf : validAnnsFor t (o :: rest) = validAnnsFor t rest := by
        simp [validAnnsFor, List.filter_cons, hot]
      have hany : ((o :: rest).any (fun o => o.sample_data_token == t))
          = (rest.any (fun o => o.sample_data_token == t)) := by
        simp [hot]
      rw [hda, hvf, hany]

theorem objectAnnsDict_eq (anns : List ObjAnn) (t : Nat) :
    buildObjectAnnsDict anns t =
      if anns.any (fun o => o.sample_data_token == t)
      then some (validAnnsFor t anns)
      else none := by
  unfold buildObjectAnnsDict
  rw [annsDict_foldl_eq]
  by_cases h : anns.any (fun o => o.sample_data_token == t) <;> simp [h]

theorem objectAnnsDict_none_iff (anns : List ObjAnn) (t : Nat) :
    buildObjectAnnsDict anns t = none ↔
      ∀ o ∈ anns, o.sample_data_token ≠ t := by
  constructor
  · intro hnone o ho hc
    have hany : anns.any (fun o => o.sample_data_token == t) = true :=
      List.any_eq_true.mpr ⟨o, ho, by simpa using hc⟩
    rw [objectAnnsDict_eq, hany] at hnone
    simp at hnone
  · intro hall
    have hany : anns.any (fun o => o.sample_data_token == t) = false := by
      rw [List.any_eq_false]
      intro o ho
      simpa using hall o ho
    rw [objectAnnsDict_eq, hany]
    simp

theorem objectAnnsDict_some (anns : List ObjAnn) (t : Nat)
    (l : List ObjAnn) (h : buildObjectAnnsDict anns t = some l) :
    l = validAnnsFor t anns := by
  rw [objectAnnsDict_eq] at h
  by_cases hc : anns.any (fun o => o.sample_data_token == t)
  · rw [if_pos hc] at h; exact (Option.some_inj.mp h).symm
  · rw [if_neg hc] at h; exact absurd h (by simp)

theorem validAnnsFor_validBox {t : Nat} {anns : List ObjAnn} {o : ObjAnn}
    (h : o ∈ validAnnsFor t anns) : validBox o = true :=
  (List.mem_filter.mp h).2

/- ### The sample-selection loop of `__init__` -/

theorem sdTokensWithObjects_foldl_mem (anns : List ObjAnn) :
    ∀ (s : Finset Nat) (t : Nat),
      (t ∈ anns.foldl (fun s o => insert o.sample_data_token s) s ↔
        t ∈ s ∨ ∃ o ∈ anns, o.sample_data_token = t) := by
  induction anns with
  | nil => intro s t; simp
  | cons o rest ih =>
    intro s t
    rw [List.foldl_cons, ih]
    constructor
    · rintro (hs | h)
      · rcases Finset.mem_insert.mp hs with h | h
        · exact Or.inr ⟨o, by simp, h.symm⟩
        · exact Or.inl h
      · rcases h with ⟨a, ha, hat⟩
        exact Or.inr ⟨a, by simp [ha], hat⟩
    · rintro (hs | ⟨a, ha, hat⟩)
      · exact Or.inl (Finset.mem_insert_of_mem hs)
      · rcases List.mem_cons.mp ha with rfl | ha
        · exact Or.inl (Finset.mem_insert.mpr (Or.inl hat.symm))
        · exact Or.inr ⟨a, ha, hat⟩

theorem sdTokensWithObjects_mem (anns : List ObjAnn) (t : Nat) :
    t ∈ sdTokensWithObjects anns ↔ ∃ o ∈ anns, o.sample_data_token = t := by
  unfold sdTokensWithObjects
  rw [sdTokensWithObjects_foldl_mem]
  simp

theorem swoLoop_length (T : Finset Nat) (l : List SampleRec) :
    ∀ i, (swoLoop T i l).length
      = (l.filter (fun s => decide (s.key_camera_token ∈ T))).length := by
  induction l with
  | nil => intro i; simp [swoLoop]
  | cons s rest ih =>
    intro i
    by_cases h : s.key_camera_token ∈ T
    · simp [swoLoop, h, List.filter_cons, ih]
    · simp [swoLoop, h, List.filter_cons, ih]

theorem swoLoop_mem (T : Finset Nat) (l : List SampleRec) :
    ∀ i j, (j ∈ swoLoop T i l ↔
      ∃ k, k < l.length ∧ j = i + k ∧
        (l.getD k default).key_camera_token ∈ T) := by
  induction l with
  | nil => intro i j; simp [swoLoop]
  | cons s rest ih =>
    intro i j
    by_cases h : s.key_camera_token ∈ T
    · simp only [swoLoop, if_pos h, List.mem_cons, ih]
      constructor
      · rintro (rfl | ⟨k, hk, rfl, hmem⟩)
        · exact ⟨0, by simp, by simp, by simpa using h⟩
        · exact ⟨k + 1, by simpa using Nat.succ_lt_succ hk,
            by omega, by simpa using hmem⟩
      · rintro ⟨k, hk, rfl, hmem⟩
        cases k with
        | zero => exact Or.inl (by simp)
        | succ k' =>
          exact Or.inr ⟨k', by simpa using Nat.lt_of_succ_lt_succ hk,
            by omega, by simpa using hmem⟩
    · simp only [swoLoop, if_neg h, ih]
      constructor
      · rintro ⟨k, hk, rfl, hmem⟩
        exact ⟨k + 1, by simpa using Nat.succ_lt_succ hk,
          by omega, by simpa using hmem⟩
      · rintro ⟨k, hk, rfl, hmem⟩
        cases k with
        | zero => exact absurd (by simpa using hmem) h
        | succ k' =>
          exact ⟨k', by simpa using Nat.lt_of_succ_lt_succ hk,
            by omega, by simpa using hmem⟩

theorem swoLoop_lb (T : Finset Nat) (l : List SampleRec) (i j : Nat)
    (h : j ∈ swoLoop T i l) : i ≤ j := by
  rcases (swoLoop_mem T l i j).mp h with ⟨k, _, rfl, _⟩
  omega

theorem swoLoop_sorted (T : Finset Nat) (l : List SampleRec) :
    ∀ i, (swoLoop T i l).Sorted (· < ·) := by
  induction l with
  | nil => intro i; simp [swoLoop]
  | cons s rest ih =>
    intro i
    by_cases h : s.key_camera_token ∈ T
    · simp only [swoLoop, if_pos h]
      exact List.Pairwise.cons
        (fun j hj => Nat.lt_of_lt_of_le (Nat.lt_succ_self i)
          (swoLoop_lb T rest (i + 1) j hj))
        (ih (i + 1))
    · simp only [swoLoop, if_neg h]
      exact ih (i + 1)

/- ### The kept-annotation loop of `__getitem__` -/

theorem keptFrom_fst_nil_iff (ct2l : Nat → Option Nat) (anns : List ObjAnn) :
    ∀ n, ((keptFrom ct2l n anns).1 = [] ↔
      ∀ a ∈ anns, ct2l a.category_token = none) := by
  induction anns with
  | nil => intro n; simp [keptFrom]
  | cons a rest ih =>
    intro n
    cases hl : ct2l a.category_token with
    | some l => simp [keptFrom, hl]
    | none => simp [keptFrom, hl, ih]

theorem keptFrom_fst_mem (ct2l : Nat → Option Nat) (anns : List ObjAnn) :
    ∀ n i, i ∈ (keptFrom ct2l n anns).1 →
      ∃ k, k < anns.length ∧ i = n + k := by
  induction anns with
  | nil => intro n i h; simp [keptFrom] at h
  | cons a rest ih =>
    intro n i h
    cases hl : ct2l a.category_token with
    | some l =>
      rw [keptFrom, hl] at h
      rcases List.mem_cons.mp h with rfl | h'
      · exact ⟨0, by simp, by simp⟩
      · rcases ih (n + 1) i h' with ⟨k, hk, rfl⟩
        exact ⟨k + 1, by simpa using Nat.succ_lt_succ hk, by omega⟩
    | none =>
      rw [keptFrom, hl] at h
      rcases ih (n + 1) i h with ⟨k, hk, rfl⟩
      exact ⟨k + 1, by simpa using Nat.succ_lt_succ hk, by omega⟩

theorem getD_mem {l : List ObjAnn} {i : Nat} (h : i < l.length) :
    l.getD i default ∈ l := by
  rw [List.getD_eq_getElem l default h]
  exact List.getElem_mem h

/- ### The token sort of `get_instance_mask` -/

theorem insertByToken_perm (a : ObjAnn) (l : List ObjAnn) :
    List.Perm (insertByToken a l) (a :: l) := by
  induction l with
  | nil => simp [insertByToken]
  | cons b rest ih =>
    by_cases h : b.token < a.token
    · rw [insertByToken, if_pos h]
      exact (List.Perm.cons b ih).trans (List.Perm.swap a b rest)
    · rw [insertByToken, if_neg h]

theorem sortByToken_perm (l : List ObjAnn) :
    List.Perm (sortByToken l) l := by
  induction l with
  | nil => simp [sortByToken]
  | cons a rest ih =>
    exact (insertByToken_perm a (sortByToken rest)).trans (List.Perm.cons a ih)

theorem insertByToken_sorted (a : ObjAnn) (l : List ObjAnn)
    (h : l.Sorted tokLE) : (insertByToken a l).Sorted tokLE := by
  induction l with
  | nil => simp [insertByToken, List.Sorted]
  | cons b rest ih =>
    rcases List.sorted_cons.mp h with ⟨hb, hrest⟩
    by_cases hba : b.token < a.token
    · rw [insertByToken, if_pos hba]
      refine List.sorted_cons.mpr ⟨?_, ih hrest⟩
      intro c hc
      rcases List.mem_cons.mp ((insertByToken_perm a rest).mem_iff.mp hc)
        with rfl | hcr
      · exact Nat.le_of_lt hba
      · exact hb c hcr
    · rw [insertByToken, if_neg hba]
      refine List.sorted_cons.mpr ⟨?_, h⟩
      intro c hc
      rcases List.mem_cons.mp hc with rfl | hcr
      · exact Nat.le_of_not_lt hba
      · exact Nat.le_trans (Nat.le_of_not_lt hba) (hb c hcr)

theorem sortByToken_sorted (l : List ObjAnn) :
    (sortByToken l).Sorted tokLE := by
  induction l with
  | nil => simp [sortByToken, List.Sorted]
  | cons a rest ih => exact insertByToken_sorted a (sortByToken rest) ih

theorem sorted_tokLT_of_nodup {l : List ObjAnn}
    (hn : (l.map ObjAnn.token).Nodup) (hs : l.Sorted tokLE) :
    l.Sorted tokLT := by
  have hp : l.Pairwise (fun a b => a.token ≠ b.token) :=
    (List.pairwise_map).mp hn
  exact (hs.and hp).imp (fun h => Nat.lt_of_le_of_ne h.1 h.2)

theorem sortByToken_eq_of_perm {l1 l2 : List ObjAnn}
    (hn : (l1.map ObjAnn.token).Nodup) (hp : List.Perm l1 l2) :
    sortByToken l1 = sortByToken l2 := by
  have h1 := sortByToken_perm l1
  have h2 := sortByToken_perm l2
  have hperm : List.Perm (sortByToken l1) (sortByToken l2) :=
    h1.trans (hp.trans h2.symm)
  have hn1 : ((sortByToken l1).map ObjAnn.token).Nodup :=
    ((h1.map ObjAnn.token).nodup_iff).mpr hn
  have hn2 : ((sortByToken l2).map ObjAnn.token).Nodup :=
    ((hperm.map ObjAnn.token).nodup_iff).mp hn1
  exact List.eq_of_perm_of_sorted hperm
    (sorted_tokLT_of_nodup hn1 (sortByToken_sorted l1))
    (sorted_tokLT_of_nodup hn2 (sortByToken_sorted l2))

theorem insertByToken_map_comm (f : ObjAnn → ObjAnn)
    (hf : ∀ a, (f a).token = a.token) (a : ObjAnn) (l : List ObjAnn) :
    insertByToken (f a) (l.map f) = (insertByToken a l).map f := by
  induction l with
  | nil => simp [insertByToken]
  | cons b rest ih =>
    simp only [List.map_cons, insertByToken, hf]
    by_cases h : b.token < a.token
    · rw [if_pos h, if_pos h, ih]
      simp
    · rw [if_neg h, if_neg h]
      simp

theorem sortByToken_map_comm (f : ObjAnn → ObjAnn)
    (hf : ∀ a, (f a).token = a.token) (l : List ObjAnn) :
    sortByToken (l.map f) = (sortByToken l).map f := by
  induction l with
  | nil => simp [sortByToken]
  | cons a rest ih =>
    simp only [List.map_cons, sortByToken, ih]
    exact insertByToken_map_comm f hf a (sortByToken rest)

/- ### Characterization of the drawing loop -/

theorem paintOne_not_covering (i : Nat) (a : ObjAnn) (L : Nat → Nat → Nat)
    (y x : Nat) (h : coversB a y x = false) : paintOne i a L y x = L y x := by
  cases hm : a.mask with
  | none => simp [paintOne, hm]
  | some m =>
    have h' : m y x = false := by
      unfold coversB at h
      rw [hm] at h
      exact h
    simp [paintOne, hm, h']

theorem paintOne_covering (i : Nat) (a : ObjAnn) (L : Nat → Nat → Nat)
    (y x : Nat) (h : coversB a y x = true) : paintOne i a L y x = i := by
  cases hm : a.mask with
  | none =>
    have h' : False := by
      unfold coversB at h
      rw [hm] at h
      exact absurd h (by simp)
    exact absurd h' (by simp)
  | some m =>
    have h' : m y x = true := by
      unfold coversB at h
      rw [hm] at h
      exact h
    simp [paintOne, hm, h']

theorem paintFrom_eq_none (l : List ObjAnn) :
    ∀ (i : Nat) (L : Nat → Nat → Nat) (y x : Nat),
      lastCover l y x = none → paintFrom i l L y x = L y x := by
  induction l with
  | nil => intro i L y x _; rfl
  | cons a rest ih =>
    intro i L y x h
    have hr : lastCover rest y x = none := by
      rw [lastCover] at h
      cases hr : lastCover rest y x with
      | some k => rw [hr] at h; exact absurd h (by simp)
      | none => rfl
    have hc : coversB a y x = false := by
      rw [lastCover, hr] at h
      by_cases hc : coversB a y x
      · rw [if_pos hc] at h; exact absurd h (by simp)
      · simpa using hc
    rw [paintFrom, ih (i + 1) _ y x hr, paintOne_not_covering i a L y x hc]

theorem paintFrom_eq_some (l : List ObjAnn) :
    ∀ (i k : Nat) (L : Nat → Nat → Nat) (y x : Nat),
      lastCover l y x = some k → paintFrom i l L y x = i + k := by
  induction l with
  | nil => intro i k L y x h; exact absurd h (by simp [lastCover])
  | cons a rest ih =>
    intro i k L y x h
    rw [paintFrom]
    cases hr : lastCover rest y x with
    | some k0 =>
      rw [lastCover, hr] at h
      have hk : k = k0 + 1 := (Option.some_inj.mp h).symm
      rw [ih (i + 1) k0 _ y x hr, hk]
      omega
    | none =>
      rw [lastCover, hr] at h
      by_cases hc : coversB a y x
      · rw [if_pos hc] at h
        have hk : k = 0 := (Option.some_inj.mp h).symm
        rw [paintFrom_eq_none rest (i + 1) _ y x hr,
          paintOne_covering i a L y x hc, hk]
        omega
      · rw [if_neg hc] at h
        exact absurd h (by simp)

theorem lastCover_none_iff (l : List ObjAnn) (y x : Nat) :
    lastCover l y x = none ↔ ∀ a ∈ l, coversB a y x = false := by
  induction l with
  | nil => simp [lastCover]
  | cons a rest ih =>
    cases hr : lastCover rest y x with
    | some k =>
      simp only [lastCover, hr]
      constructor
      · intro h; exact absurd h (by simp)
      · intro h
        have hnone : lastCover rest y x = none :=
          ih.mpr (fun b hb => h b (by simp [hb]))
        rw [hr] at hnone
        exact absurd hnone (by simp)
    | none =>
      simp only [lastCover, hr]
      by_cases hc : coversB a y x
      · constructor
        · intro h
          rw [if_pos hc] at h
          exact absurd h (by simp)
        · intro h
          exact absurd (h a (by simp)) (by simp [hc])
      · rw [if_neg hc]
        constructor
        · intro _ b hb
          rcases List.mem_cons.mp hb with rfl | hbr
          · simpa using hc
          · exact ih.mp hr b hbr
        · intro _; rfl

theorem lastCover_spec1 (l : List ObjAnn) (y x : Nat) :
    ∀ k, lastCover l y x = some k →
      ∃ h : k < l.length,
        coversB (l.get ⟨k, h⟩) y x = true ∧
        ∀ m, ∀ hm : m < l.length, k < m →
          coversB (l.get ⟨m, hm⟩) y x = false := by
  induction l with
  | nil => intro k h; simp [lastCover] at h
  | cons a rest ih =>
    intro k h
    cases hr : lastCover rest y x with
    | some k0 =>
      rw [lastCover, hr] at h
      have hk : k = k0 + 1 := (Option.some_inj.mp h).symm
      subst hk
      rcases ih k0 hr with ⟨hlt, hcov, hlast⟩
      refine ⟨by simpa using Nat.succ_lt_succ hlt, by simpa using hcov, ?_⟩
      intro m hm hkm
      cases m with
      | zero => omega
      | succ m' =>
        have hm' : m' < rest.length := by simpa using Nat.lt_of_succ_lt_succ hm
        have : k0 < m' := by omega
        simpa using hlast m' hm' this
    | none =>
      rw [lastCover, hr] at h
      by_cases hc : coversB a y x
      · rw [if_pos hc] at h
        have hk : k = 0 := (Option.some_inj.mp h).symm
        subst hk
        refine ⟨by simp, by simpa using hc, ?_⟩
        intro m hm hkm
        cases m with
        | zero => omega
        | succ m' =>
          have hm' : m' < rest.length := by simpa using Nat.lt_of_succ_lt_succ hm
          have := (lastCover_none_iff rest y x).mp hr
          simpa using this (rest.get ⟨m', hm'⟩) (rest.get_mem _ _)
      · rw [if_neg hc] at h
        exact absurd h (by simp)

theorem lastCover_spec2 (l : List ObjAnn) (y x : Nat) :
    ∀ k, ∀ h : k < l.length,
      coversB (l.get ⟨k, h⟩) y x = true →
      (∀ m, ∀ hm : m < l.length, k < m →
        coversB (l.get ⟨m, hm⟩) y x = false) →
      lastCover l y x = some k := by
  induction l with
  | nil => intro k h; exact absurd h (by simp)
  | cons a rest ih =>
    intro k h hcov hlast
    cases k with
    | zero =>
      have hnone : lastCover rest y x = none := by
        rw [lastCover_none_iff]
        intro b hb
        rcases List.mem_iff_get.mp hb with ⟨⟨m', hm'⟩, rfl⟩
        have hm1 : m' + 1 < (a :: rest).length := by
          simpa using Nat.succ_lt_succ hm'
        simpa using hlast (m' + 1) hm1 (by omega)
      rw [lastCover, hnone, if_pos (by simpa using hcov)]
    | succ k' =>
      have hk' : k' < rest.length := by simpa using Nat.lt_of_succ_lt_succ h
      have hcov' : coversB (rest.get ⟨k', hk'⟩) y x = true := by simpa using hcov
      have hlast' : ∀ m, ∀ hm : m < rest.length, k' < m →
          coversB (rest.get ⟨m, hm⟩) y x = false := by
        intro m hm hkm
        have hm1 : m + 1 < (a :: rest).length := by simpa using Nat.succ_lt_succ hm
        simpa using hlast (m + 1) hm1 (by omega)
      rw [lastCover, ih k' hk' hcov' hlast']

/- ### The per-image caches compute the pure values -/

theorem keptCached_correct (ds : Dataset) (env : NuImagesTbl) (s : CacheState)
    (sd_token : Nat) (object_anns : List ObjAnn)
    (hcons : Consistent ds env s)
    (hd : ds.object_anns_dict sd_token = some object_anns) :
    (keptCached ds s sd_token object_anns).1
      = keptFrom ds.cat_token_to_label 0 object_anns ∧
    Consistent ds env (keptCached ds s sd_token object_anns).2 := by
  rcases hcons with ⟨hck, hcm⟩
  cases hkc : s.kept_cache sd_token with
  | none =>
    constructor
    · simp [keptCached, hkc]
    · refine ⟨?_, ?_⟩
      · intro t v hv anns hanns
        simp only [keptCached, hkc] at hv
        by_cases ht : t = sd_token
        · subst ht
          rw [if_pos rfl] at hv
          have hv' := Option.some_inj.mp hv
          rw [hd] at hanns
          rw [← Option.some_inj.mp hanns, ← hv']
        · rw [if_neg ht] at hv
          exact hck t v hv anns hanns
      · intro t m hm anns hanns
        simp only [keptCached, hkc] at hm
        exact hcm t m hm anns hanns
  | some k =>
    constructor
    · simp only [keptCached, hkc]
      exact hck sd_token k hkc object_anns hd
    · simp only [keptCached, hkc]
      exact ⟨hck, hcm⟩

theorem maskCached_correct (ds : Dataset) (env : NuImagesTbl) (s : CacheState)
    (sd_token : Nat) (object_anns : List ObjAnn)
    (hcons : Consistent ds env s)
    (hd : ds.object_anns_dict sd_token = some object_anns) :
    (maskCached env s sd_token (env.imageFor sd_token) object_anns).1
      = get_instance_mask env (env.imageFor sd_token) object_anns ∧
    Consistent ds env
      (maskCached env s sd_token (env.imageFor sd_token) object_anns).2 := by
  rcases hcons with ⟨hck, hcm⟩
  cases hmc : s.inst_mask_cache sd_token with
  | none =>
    constructor
    · simp [maskCached, hmc]
    · refine ⟨?_, ?_⟩
      · intro t v hv anns hanns
        simp only [maskCached, hmc] at hv
        exact hck t v hv anns hanns
      · intro t m hm anns hanns
        simp only [maskCached, hmc] at hm
        by_cases ht : t = sd_token
        · subst ht
          rw [if_pos rfl] at hm
          have hm' := Option.some_inj.mp hm
          rw [hd] at hanns
          rw [← Option.some_inj.mp hanns, ← hm']
        · rw [if_neg ht] at hm
          exact hcm t m hm anns hanns
  | some m =>
    constructor
    · simp only [maskCached, hmc]
      exact hcm sd_token m hmc object_anns hd
    · simp only [maskCached, hmc]
      exact ⟨hck, hcm⟩

theorem getitemSt_eq (ds : Dataset) (env : NuImagesTbl) (s : CacheState)
    (idx : Nat) (hcons : Consistent ds env s) :
    (getitemSt ds env s idx).1 = getitemPure ds env idx ∧
      Consistent ds env (getitemSt ds env s idx).2 := by
  cases hg : ds.samples_with_objects.get? idx with
  | none =>
    simp only [getitemSt, getitemPure, hg]
    exact ⟨trivial, hcons⟩
  | some si =>
  cases hs : env.sample.get? si with
  | none =>
    simp only [getitemSt, getitemPure, hg, hs]
    exact ⟨trivial, hcons⟩
  | some sample =>
  simp only [getitemSt, getitemPure, hg, hs]
  by_cases hha : ds.has_ann = false
  · rw [if_pos hha, if_pos hha]
    exact ⟨rfl, hcons⟩
  · rw [if_neg hha, if_neg hha]
    cases hd : ds.object_anns_dict sample.key_camera_token with
    | none =>
      simp only [hd]
      exact ⟨trivial, hcons⟩
    | some object_anns =>
      simp only [hd]
      rcases keptCached_correct ds env s sample.key_camera_token object_anns
        hcons hd with ⟨hkv, hkc⟩
      rw [hkv]
      by_cases hke : (keptFrom ds.cat_token_to_label 0 object_anns).1 = []
      · rw [if_pos hke, if_pos hke]
        exact ⟨rfl, hkc⟩
      · rw [if_neg hke, if_neg hke]
        rcases maskCached_correct ds env
          (keptCached ds s sample.key_camera_token object_anns).2
          sample.key_camera_token object_anns hkc hd with ⟨hmv, hmc⟩
        rw [hmv]
        exact ⟨rfl, hmc⟩

theorem initCache_consistent (ds : Dataset) (env : NuImagesTbl) :
    Consistent ds env initCache := by
  constructor
  · intro t v hv
    exact absurd hv (by simp [initCache])
  · intro t m hm
    exact absurd hm (by simp [initCache])

/- ### Claim theorems -/

/-- C1: the claim states that with `remove_empty = false` (and at least one
object annotation in the dataset) every image is addressable, and `get` on an
image owning zero raw annotations returns a well-formed `N = 0` target rather
than failing.  The code violates the second half: in `c1ds` both images are
addressable (`len = 2`), but `__getitem__(0)` addresses the image with zero
raw annotations and evaluates `self.object_anns_dict[sd_token]`, whose key
was never created for that image, so the call raises `KeyError` (modelled by
`none`) instead of building the `N = 0` target. -/
theorem c1_zero_ann_image_keyerror :
    datasetLen c1ds = 2 ∧ getitemPure c1ds c1env 0 = none :=
  ⟨rfl, rfl⟩

/-- C2: the claim states that `masks[k]` is the decoded mask of the same
annotation that supplies `boxes[k]` (layer value `i+1` marking the annotation
at original position `i` of the filtered list).  The code violates this:
`get_instance_mask` assigns layer values in token-sorted order while
`__getitem__` extracts at original-order positions (the code comment
"assigns 1..N to object_anns in original order" is wrong).  In `c2ds`,
`boxes[0]` is the box of the token-2 annotation `c2A`, yet `masks[0]` is 0 at
pixel (0,0) where `c2A`'s decoded mask is 1, and is 1 at pixel (0,1) where
`c2A`'s decoded mask is 0 (it is the token-1 annotation's mask instead). -/
theorem c2_mask_box_mismatch :
    (gotTarget (getitemPure c2ds c2env 0)).map
        (fun t => (t.boxes.getD 0 default,
                   t.masks.getD 0 (fun _ _ => false) 0 0,
                   t.masks.getD 0 (fun _ _ => false) 0 1))
      = some (c2A.bbox, false, true) ∧
    c2A.mask.getD (fun _ _ => false) 0 0 = true ∧
    c2A.mask.getD (fun _ _ => false) 0 1 = false :=
  ⟨by decide, by decide, by decide⟩

/-- C3: the claim states that all leading tensor dimensions of a target
agree.  The code violates it: `iscrowd` is built with length
`len(object_anns)` (all filtered annotations of the image) instead of the
number of kept annotations.  In `c3ds` one of the two filtered annotations is
of an unmapped category, so `boxes`/`labels`/`masks`/`area` have length 1
while `iscrowd` has length 2. -/
theorem c3_iscrowd_length_mismatch :
    (gotTarget (getitemPure c3ds c3env 0)).map
        (fun t => (t.iscrowd.length, t.boxes.length, t.labels.length,
                   t.masks.length, t.area.length))
      = some (2, 1, 1, 1, 1) := by
  decide

/-- C8 counterexample: the claim quantifies over every addressable image all
of whose filtered annotations have unmapped categories; with
`remove_empty = false` an image owning zero raw annotations is addressable
and satisfies that condition vacuously, but `get` raises `KeyError`
(modelled by `none`) instead of returning the `N = 0` target. -/
theorem c8_zero_ann_image_counterexample :
    datasetLen c8ds = 2 ∧ getitemPure c8ds c8env 0 = none :=
  ⟨rfl, rfl⟩

/-- C4: for any two annotation lists that are permutations of each other
(annotation identifiers being distinct, as identifiers of records are), the
rasterizer produces identical integer layers: it normalizes the order by
sorting on the token before assigning layer values. -/
theorem c4_rasterizer_order_invariant (env : NuImagesTbl) (image : Img)
    (l1 l2 : List ObjAnn) (hn : (l1.map ObjAnn.token).Nodup)
    (hp : List.Perm l1 l2) :
    get_instance_mask env image l1 = get_instance_mask env image l2 := by
  simp only [get_instance_mask]
  rw [sortByToken_eq_of_perm hn hp]

/-- Witness for C4 at a concrete pair of permuted two-annotation lists. -/
theorem c4_rasterizer_order_invariant_witness :
    ([c4a, c4b].map ObjAnn.token).Nodup ∧
    List.Perm [c4a, c4b] [c4b, c4a] ∧
    get_instance_mask c4env ⟨2, 1⟩ [c4a, c4b]
      = get_instance_mask c4env ⟨2, 1⟩ [c4b, c4a] :=
  ⟨by decide, List.Perm.swap c4b c4a [],
    c4_rasterizer_order_invariant c4env ⟨2, 1⟩ [c4a, c4b] [c4b, c4a]
      (by decide) (List.Perm.swap c4b c4a [])⟩

/-- The instance-mask layer at a pixel is `k + 1` where `k` is the position
(0-based, in token-sorted order) of the last annotation whose present mask
covers the pixel, and `0` when no mask covers it. -/
theorem get_instance_mask_last (env : NuImagesTbl) (image : Img)
    (anns : List ObjAnn) (y x : Nat) :
    get_instance_mask env image anns y x
      = match lastCover (sortByToken anns) y x with
        | some k => k + 1
        | none => 0 := by
  simp only [get_instance_mask]
  cases h : lastCover (sortByToken anns) y x with
  | none => rw [paintFrom_eq_none _ 1 _ y x h]
  | some k =>
    rw [paintFrom_eq_some _ 1 k _ y x h]
    show 1 + k = k + 1
    omega

/-- C5: if two annotations at token-sorted positions `j < k` both cover a
pixel, and `k` is the last writer there (no later annotation in sorted order
covers the pixel), the layer holds the 1-based index `k + 1` assigned to the
later annotation: last-written-wins. -/
theorem c5_last_written_wins (env : NuImagesTbl) (image : Img)
    (anns : List ObjAnn) (j k y x : Nat) (hj : j < k)
    (hk : k < (sortByToken anns).length)
    (hcj : coversB ((sortByToken anns).get ⟨j, Nat.lt_trans hj hk⟩) y x = true)
    (hck : coversB ((sortByToken anns).get ⟨k, hk⟩) y x = true)
    (hlast : ∀ m, ∀ hm : m < (sortByToken anns).length, k < m →
      coversB ((sortByToken anns).get ⟨m, hm⟩) y x = false) :
    get_instance_mask env image anns y x = k + 1 := by
  rw [get_instance_mask_last,
    lastCover_spec2 (sortByToken anns) y x k hk hck hlast]

/-- Witness for C5: two overlapping masks, the token-later one wins at the
overlap pixel. -/
theorem c5_last_written_wins_witness :
    (0 : Nat) < 1 ∧ get_instance_mask c5env ⟨2, 1⟩ c5anns 0 0 = 1 + 1 :=
  ⟨Nat.zero_lt_one,
    c5_last_written_wins c5env ⟨2, 1⟩ c5anns 0 1 0 0 Nat.zero_lt_one
      (by decide) (by decide) (by decide)
      (by
        intro m hm h1
        have hl : (sortByToken c5anns).length = 2 := by decide
        rw [hl] at hm
        exact absurd h1 (by omega))⟩

theorem coversB_of_mask_none {a : ObjAnn} (h : a.mask = none) (y x : Nat) :
    coversB a y x = false := by
  simp only [coversB, h]

theorem token_ne_of_nodup {l : List ObjAnn} (hn : (l.map ObjAnn.token).Nodup)
    {i j : Nat} (hi : i < l.length) (hj : j < l.length) (hij : i ≠ j) :
    (l.get ⟨i, hi⟩).token ≠ (l.get ⟨j, hj⟩).token := by
  intro he
  have hi' : i < (l.map ObjAnn.token).length := by simpa using hi
  have hj' : j < (l.map ObjAnn.token).length := by simpa using hj
  have hg : (l.map ObjAnn.token).get ⟨i, hi'⟩
      = (l.map ObjAnn.token).get ⟨j, hj'⟩ := by
    simp only [List.get_eq_getElem, List.getElem_map]
    simpa [List.get_eq_getElem] using he
  have hfin := (hn.get_inj_iff).mp hg
  exact hij (by simpa using congrArg Fin.val hfin)

/-- C6: an annotation whose encoded mask is absent writes no pixels (no pixel
of the layer ever holds its 1-based sorted index `j + 1`), but its index is
still consumed: whenever the layer obtained after giving that annotation a
mask assigns value `k + 1` (`k ≠ j`) to a pixel, the original layer assigns
the same `k + 1` there — every other annotation keeps the layer index it
would have had if the absent mask were present. -/
theorem c6_absent_mask_reserves_index (env : NuImagesTbl) (image : Img)
    (anns : List ObjAnn) (j : Nat) (mNew : DecodedMask)
    (hn : (anns.map ObjAnn.token).Nodup)
    (hj : j < (sortByToken anns).length)
    (hmask : ((sortByToken anns).get ⟨j, hj⟩).mask = none) :
    (∀ y x, get_instance_mask env image anns y x ≠ j + 1) ∧
    (∀ y x k, k ≠ j →
      get_instance_mask env image
        (anns.map (fun a =>
          if a.token = ((sortByToken anns).get ⟨j, hj⟩).token
          then { a with mask := some mNew } else a)) y x = k + 1 →
      get_instance_mask env image anns y x = k + 1) := by
  have hsn : ((sortByToken anns).map ObjAnn.token).Nodup :=
    (((sortByToken_perm anns).map ObjAnn.token).nodup_iff).mpr hn
  constructor
  · intro y x hval
    rw [get_instance_mask_last] at hval
    cases hl : lastCover (sortByToken anns) y x with
    | none =>
      rw [hl] at hval
      have hz : (0 : Nat) = j + 1 := hval
      omega
    | some k0 =>
      rw [hl] at hval
      have hval' : k0 + 1 = j + 1 := hval
      have hk0 : k0 = j := by omega
      subst hk0
      rcases lastCover_spec1 _ y x k0 hl with ⟨hlt, hcov, _⟩
      have hfalse : coversB ((sortByToken anns).get ⟨k0, hlt⟩) y x = false :=
        coversB_of_mask_none hmask y x
      rw [hcov] at hfalse
      exact absurd hfalse (by simp)
  · intro y x k hkj hval
    have hftok : ∀ a : ObjAnn,
        ((fun a : ObjAnn =>
          if a.token = ((sortByToken anns).get ⟨j, hj⟩).token
          then { a with mask := some mNew } else a) a).token = a.token := by
      intro a
      show (if a.token = ((sortByToken anns).get ⟨j, hj⟩).token
          then { a with mask := some mNew } else a).token = a.token
      by_cases h : a.token = ((sortByToken anns).get ⟨j, hj⟩).token
      · rw [if_pos h]
      · rw [if_neg h]
    have hsort := sortByToken_map_comm _ hftok anns
    rw [get_instance_mask_last] at hval
    rw [get_instance_mask_last]
    rw [hsort] at hval
    cases hl : lastCover ((sortByToken anns).map (fun a =>
        if a.token = ((sortByToken anns).get ⟨j, hj⟩).token
        then { a with mask := some mNew } else a)) y x with
    | none =>
      rw [hl] at hval
      have hz : (0 : Nat) = k + 1 := hval
      omega
    | some k0 =>
      rw [hl] at hval
      have hval' : k0 + 1 = k + 1 := hval
      have hk0 : k0 = k := by omega
      subst hk0
      rcases lastCover_spec1 _ y x k0 hl with ⟨hlt, hcov, hlast⟩
      have hlt' : k0 < (sortByToken anns).length := by simpa using hlt
      have hne0 := token_ne_of_nodup hsn hlt' hj hkj
      have hfix : (fun a : ObjAnn =>
          if a.token = ((sortByToken anns).get ⟨j, hj⟩).token
          then { a with mask := some mNew } else a)
            ((sortByToken anns).get ⟨k0, hlt'⟩)
          = (sortByToken anns).get ⟨k0, hlt'⟩ := by
        simp only [if_neg hne0]
      have hgetmap : ((sortByToken anns).map (fun a : ObjAnn =>
          if a.token = ((sortByToken anns).get ⟨j, hj⟩).token
          then { a with mask := some mNew } else a)).get ⟨k0, hlt⟩
          = (fun a : ObjAnn =>
            if a.token = ((sortByToken anns).get ⟨j, hj⟩).token
            then { a with mask := some mNew } else a)
              ((sortByToken anns).get ⟨k0, hlt'⟩) := by
        simp [List.get_eq_getElem, List.getElem_map]
      have hcov' : coversB ((sortByToken anns).get ⟨k0, hlt'⟩) y x = true := by
        rw [hgetmap, hfix] at hcov
        exact hcov
      have hlast' : ∀ m, ∀ hm : m < (sortByToken anns).length, k0 < m →
          coversB ((sortByToken anns).get ⟨m, hm⟩) y x = false := by
        intro m hm hkm
        by_cases hmj : m = j
        · subst hmj
          exact coversB_of_mask_none hmask y x
        · have hm2 : m < ((sortByToken anns).map (fun a : ObjAnn =>
              if a.token = ((sortByToken anns).get ⟨j, hj⟩).token
              then { a with mask := some mNew } else a)).length := by
            simpa using hm
          have hl2 := hlast m hm2 hkm
          have hnem := token_ne_of_nodup hsn hm hj hmj
          have hfixm : (fun a : ObjAnn =>
              if a.token = ((sortByToken anns).get ⟨j, hj⟩).token
              then { a with mask := some mNew } else a)
                ((sortByToken anns).get ⟨m, hm⟩)
              = (sortByToken anns).get ⟨m, hm⟩ := by
            simp only [if_neg hnem]
          have hgm : ((sortByToken anns).map (fun a : ObjAnn =>
              if a.token = ((sortByToken anns).get ⟨j, hj⟩).token
              then { a with mask := some mNew } else a)).get ⟨m, hm2⟩
              = (fun a : ObjAnn =>
                if a.token = ((sortByToken anns).get ⟨j, hj⟩).token
                then { a with mask := some mNew } else a)
                  ((sortByToken anns).get ⟨m, hm⟩) := by
            simp [List.get_eq_getElem, List.getElem_map]
          rw [hgm, hfixm] at hl2
          exact hl2
      rw [lastCover_spec2 _ y x k0 hlt' hcov' hlast']

/-- The sorted C6 fixture has more than two elements. -/
theorem c6hj : 1 < (sortByToken c6anns).length := by decide

/-- Witness for C6 at the concrete three-annotation fixture whose middle
annotation (sorted position 1) has no encoded mask. -/
theorem c6_absent_mask_reserves_index_witness :
    ((c6anns.map ObjAnn.token).Nodup) ∧
    ((∀ y x, get_instance_mask c6env ⟨3, 1⟩ c6anns y x ≠ 1 + 1) ∧
     (∀ y x k, k ≠ 1 →
        get_instance_mask c6env ⟨3, 1⟩
          (c6anns.map (fun a =>
            if a.token = ((sortByToken c6anns).get ⟨1, c6hj⟩).token
            then { a with mask := some c6mNew } else a)) y x = k + 1 →
        get_instance_mask c6env ⟨3, 1⟩ c6anns y x = k + 1)) :=
  ⟨by decide,
    c6_absent_mask_reserves_index c6env ⟨3, 1⟩ c6anns 1 c6mNew
      (by decide) c6hj rfl⟩

theorem validBox_spec {o : ObjAnn} (h : validBox o = true) :
    0 < o.bbox.xmax - o.bbox.xmin ∧ 0 < o.bbox.ymax - o.bbox.ymin := by
  unfold validBox at h
  simp only [Bool.and_eq_true, decide_eq_true_eq] at h
  exact h

/-- Every box of a target produced by `__getitem__` (no transform configured)
has positive width and height: the boxes are drawn from `object_anns_dict`,
which kept only annotations passing the degenerate-box filter at index-build
time. -/
theorem getitemPure_boxes_valid (env : NuImagesTbl)
    (nm : String → Option String) (cid : String → Nat) (re : Bool)
    (idx : Nat) (img : Img) (t : Target)
    (h : getitemPure (mkDataset env nm cid none re) env idx
          = some (img, some t)) :
    ∀ b ∈ t.boxes, 0 < b.xmax - b.xmin ∧ 0 < b.ymax - b.ymin := by
  cases hg : (mkDataset env nm cid none re).samples_with_objects.get? idx with
  | none =>
    simp only [getitemPure, hg] at h
    exact absurd h (by simp)
  | some si =>
  cases hs : env.sample.get? si with
  | none =>
    simp only [getitemPure, hg, hs] at h
    exact absurd h (by simp)
  | some sample =>
  simp only [getitemPure, hg, hs] at h
  by_cases hha : (mkDataset env nm cid none re).has_ann = false
  · rw [if_pos hha] at h
    simp at h
  · rw [if_neg hha] at h
    cases hd : (mkDataset env nm cid none re).object_anns_dict
        sample.key_camera_token with
    | none =>
      simp only [hd] at h
      exact absurd h (by simp)
    | some object_anns =>
      simp only [hd] at h
      by_cases hke : (keptFrom (mkDataset env nm cid none re).cat_token_to_label
          0 object_anns).1 = []
      · rw [if_pos hke] at h
        simp only [finishTarget] at h
        have ht : t = emptyTarget (env.imageFor sample.key_camera_token) idx :=
          (Option.some_inj.mp (congrArg Prod.snd (Option.some_inj.mp h))).symm
        subst ht
        intro b hb
        simp [emptyTarget] at hb
      · rw [if_neg hke] at h
        simp only [finishTarget] at h
        have ht : t = mainTarget (env.imageFor sample.key_camera_token) idx
            object_anns
            (keptFrom (mkDataset env nm cid none re).cat_token_to_label
              0 object_anns).1
            (keptFrom (mkDataset env nm cid none re).cat_token_to_label
              0 object_anns).2
            (get_instance_mask env (env.imageFor sample.key_camera_token)
              object_anns) :=
          (Option.some_inj.mp (congrArg Prod.snd (Option.some_inj.mp h))).symm
        subst ht
        intro b hb
        simp only [mainTarget, List.mem_map] at hb
        rcases hb with ⟨i, hi, rfl⟩
        rcases keptFrom_fst_mem _ object_anns 0 i hi with ⟨kk, hkk, hik⟩
        have hilen : i < object_anns.length := by omega
        have hmem : object_anns.getD i default ∈ object_anns := getD_mem hilen
        have hoa : object_anns
            = validAnnsFor sample.key_camera_token env.object_ann :=
          objectAnnsDict_some env.object_ann sample.key_camera_token
            object_anns hd
        have hmem2 : object_anns.getD i default
            ∈ validAnnsFor sample.key_camera_token env.object_ann := by
          rw [← hoa]
          exact hmem
        exact validBox_spec (validAnnsFor_validBox hmem2)

/-- C7: with no transform configured, on every call (from any cache state
consistent with the immutable index — in particular on repeated calls to the
same index, since consistency is preserved) every box of a returned target
has positive width and height, hence an annotation whose box has
non-positive width or height never contributes a row: it was excluded once,
at index-build time, when `object_anns_dict` was populated. -/
theorem c7_degenerate_boxes_never_in_target (env : NuImagesTbl)
    (nm : String → Option String) (cid : String → Nat) (re : Bool)
    (s : CacheState) (idx : Nat)
    (hcons : Consistent (mkDataset env nm cid none re) env s) :
    (∀ img t,
      (getitemSt (mkDataset env nm cid none re) env s idx).1
          = some (img, some t) →
        (∀ b ∈ t.boxes, 0 < b.xmax - b.xmin ∧ 0 < b.ymax - b.ymin) ∧
        (∀ o : ObjAnn,
          o.bbox.xmax - o.bbox.xmin ≤ 0 ∨ o.bbox.ymax - o.bbox.ymin ≤ 0 →
            o.bbox ∉ t.boxes)) ∧
    Consistent (mkDataset env nm cid none re) env
      (getitemSt (mkDataset env nm cid none re) env s idx).2 := by
  rcases getitemSt_eq (mkDataset env nm cid none re) env s idx hcons
    with ⟨hv, hc⟩
  refine ⟨?_, hc⟩
  intro img t ht
  rw [hv] at ht
  have hb := getitemPure_boxes_valid env nm cid re idx img t ht
  refine ⟨hb, ?_⟩
  intro o ho hmem
  rcases hb o.bbox hmem with ⟨h1, h2⟩
  rcases ho with ho | ho
  · exact absurd h1 (by omega)
  · exact absurd h2 (by omega)

/-- Witness for C7 at a concrete dataset and the initial (empty) caches. -/
theorem c7_degenerate_boxes_never_in_target_witness :
    Consistent c7ds c7env initCache ∧
    ((∀ img t,
      (getitemSt c7ds c7env initCache 0).1 = some (img, some t) →
        (∀ b ∈ t.boxes, 0 < b.xmax - b.xmin ∧ 0 < b.ymax - b.ymin) ∧
        (∀ o : ObjAnn,
          o.bbox.xmax - o.bbox.xmin ≤ 0 ∨ o.bbox.ymax - o.bbox.ymin ≤ 0 →
            o.bbox ∉ t.boxes)) ∧
     Consistent c7ds c7env (getitemSt c7ds c7env initCache 0).2) :=
  ⟨initCache_consistent _ _,
    c7_degenerate_boxes_never_in_target c7env nmAll cidOne true initCache 0
      (initCache_consistent _ _)⟩

/-- C8 (amended: additionally assuming the image owns at least one raw
annotation, without which the `object_anns_dict` lookup raises `KeyError` —
see the counterexample): for every addressable image whose filtered
annotations all have unmapped categories, `get` returns, normally, a target
with `N = 0`: empty `boxes`/`labels`/`masks`/`area`/`iscrowd`, the masks
tensor dimensioned by the image's actual height and width. -/
theorem c8_all_unmapped_empty_target (env : NuImagesTbl)
    (nm : String → Option String) (cid : String → Nat) (re : Bool)
    (idx si : Nat) (sample : SampleRec) (object_anns : List ObjAnn)
    (hidx : (mkDataset env nm cid none re).samples_with_objects.get? idx
        = some si)
    (hs : env.sample.get? si = some sample)
    (hd : (mkDataset env nm cid none re).object_anns_dict
        sample.key_camera_token = some object_anns)
    (hunm : ∀ a ∈ object_anns,
      (mkDataset env nm cid none re).cat_token_to_label a.category_token
        = none) :
    getitemPure (mkDataset env nm cid none re) env idx
      = some (env.imageFor sample.key_camera_token, some
          { boxes := [], labels := [], masks := [],
            masksH := (env.imageFor sample.key_camera_token).height,
            masksW := (env.imageFor sample.key_camera_token).width,
            image_id := idx, area := [], iscrowd := [] }) := by
  have hha : (mkDataset env nm cid none re).has_ann = true := by
    have hd' : buildObjectAnnsDict env.object_ann sample.key_camera_token
        = some object_anns := hd
    rw [objectAnnsDict_eq] at hd'
    by_cases hany : env.object_ann.any
        (fun o => o.sample_data_token == sample.key_camera_token)
    · rcases List.any_eq_true.mp hany with ⟨o, ho, _⟩
      show (!env.object_ann.isEmpty) = true
      cases henv : env.object_ann with
      | nil => rw [henv] at ho; exact absurd ho (by simp)
      | cons a l => simp
    · rw [if_neg hany] at hd'
      exact absurd hd' (by simp)
  have hke : (keptFrom (mkDataset env nm cid none re).cat_token_to_label
      0 object_anns).1 = [] :=
    (keptFrom_fst_nil_iff _ object_anns 0).mpr hunm
  simp only [getitemPure, hidx, hs]
  rw [if_neg (by simp [hha])]
  simp only [hd]
  rw [if_pos hke]
  have htr : (mkDataset env nm cid none re).transforms = none := rfl
  simp [finishTarget, emptyTarget, htr]

/-- Witness for the amended C8 at a one-image dataset whose single valid
annotation has an unmapped category. -/
theorem c8_all_unmapped_empty_target_witness :
    getitemPure (mkDataset c8wenv nmCar cidOne none true) c8wenv 0
      = some (c8wenv.imageFor 10, some
          { boxes := [], labels := [], masks := [],
            masksH := (c8wenv.imageFor 10).height,
            masksW := (c8wenv.imageFor 10).width,
            image_id := 0, area := [], iscrowd := [] }) :=
  c8_all_unmapped_empty_target c8wenv nmCar cidOne true 0 0 ⟨10⟩ [c8wann]
    rfl rfl rfl
    (by
      intro a ha
      rw [List.mem_singleton] at ha
      subst ha
      rfl)

/-- C9: with `remove_empty = true` and a dataset that has some object
annotation, `len` counts the images owning at least one raw annotation
(existence is checked on the raw `object_ann` list, before the zero-area
filter, so an image whose only annotations are degenerate still counts), and
the kept indices are the qualifying positions in increasing (original) image
order. -/
theorem c9_remove_empty_counts_raw_annotations (env : NuImagesTbl)
    (nm : String → Option String) (cid : String → Nat)
    (tr : Option Transforms) (hne : env.object_ann ≠ []) :
    datasetLen (mkDataset env nm cid tr true)
      = (env.sample.filter (fun srec =>
          env.object_ann.any
            (fun o => o.sample_data_token == srec.key_camera_token))).length ∧
    (mkDataset env nm cid tr true).samples_with_objects.Sorted (· < ·) ∧
    (∀ j, j ∈ (mkDataset env nm cid tr true).samples_with_objects ↔
      (j < env.sample.length ∧
        env.object_ann.any (fun o =>
          o.sample_data_token
            == (env.sample.getD j default).key_camera_token) = true)) := by
  have hha : (!env.object_ann.isEmpty) = true := by
    cases henv : env.object_ann with
    | nil => exact absurd henv hne
    | cons a l => simp
  have hswo : (mkDataset env nm cid tr true).samples_with_objects
      = swoLoop (sdTokensWithObjects env.object_ann) 0 env.sample := by
    show buildSamplesWithObjects env true (!env.object_ann.isEmpty) = _
    simp [buildSamplesWithObjects, hha]
  have hmemT : ∀ key : Nat,
      (key ∈ sdTokensWithObjects env.object_ann ↔
        env.object_ann.any (fun o => o.sample_data_token == key) = true) := by
    intro key
    rw [sdTokensWithObjects_mem, List.any_eq_true]
    constructor
    · rintro ⟨o, ho, h⟩
      exact ⟨o, ho, by simpa using h⟩
    · rintro ⟨o, ho, h⟩
      exact ⟨o, ho, by simpa using h⟩
  refine ⟨?_, ?_, ?_⟩
  · show (mkDataset env nm cid tr true).samples_with_objects.length = _
    rw [hswo, swoLoop_length]
    congr 1
    apply List.filter_congr
    intro srec _
    rw [Bool.eq_iff_iff, decide_eq_true_eq]
    exact hmemT srec.key_camera_token
  · rw [hswo]
    exact swoLoop_sorted _ _ 0
  · intro j
    rw [hswo, swoLoop_mem]
    constructor
    · rintro ⟨k, hk, rfl, hmem⟩
      have h0 : (0 : Nat) + k = k := Nat.zero_add k
      rw [h0]
      exact ⟨hk, (hmemT _).mp hmem⟩
    · rintro ⟨h, hany⟩
      exact ⟨j, h, by omega, (hmemT _).mpr hany⟩

/-- Witness for C9 at the three-image fixture: images owning raw annotations
(one of them only a degenerate-box one) are kept, in order; `len = 2`. -/
theorem c9_remove_empty_counts_raw_annotations_witness :
    c9env.object_ann ≠ [] ∧
    datasetLen (mkDataset c9env nmAll cidOne none true) = 2 ∧
    (datasetLen (mkDataset c9env nmAll cidOne none true)
      = (c9env.sample.filter (fun srec =>
          c9env.object_ann.any
            (fun o => o.sample_data_token == srec.key_camera_token))).length ∧
    (mkDataset c9env nmAll cidOne none true).samples_with_objects.Sorted (· < ·) ∧
    (∀ j, j ∈ (mkDataset c9env nmAll cidOne none true).samples_with_objects ↔
      (j < c9env.sample.length ∧
        c9env.object_ann.any (fun o =>
          o.sample_data_token
            == (c9env.sample.getD j default).key_camera_token) = true))) :=
  ⟨List.cons_ne_nil _ _, by decide,
    c9_remove_empty_counts_raw_annotations c9env nmAll cidOne none
      (List.cons_ne_nil _ _)⟩

/-- C10: when the dataset holds no object annotation at all (test split),
every image is addressable regardless of `remove_empty`, and `get` returns
the raw image paired with `None` — the transform hook, even when configured,
is never invoked (the result does not depend on `tr`). -/
theorem c10_test_split_returns_none_target (env : NuImagesTbl)
    (nm : String → Option String) (cid : String → Nat)
    (tr : Option Transforms) (re : Bool) (hempty : env.object_ann = []) :
    datasetLen (mkDataset env nm cid tr re) = env.sample.length ∧
    ∀ idx, ∀ h : idx < env.sample.length,
      getitemPure (mkDataset env nm cid tr re) env idx
        = some (env.imageFor
            ((env.sample.getD idx default).key_camera_token), none) := by
  have hha : (mkDataset env nm cid tr re).has_ann = false := by
    show (!env.object_ann.isEmpty) = false
    rw [hempty]
    rfl
  have hswo : (mkDataset env nm cid tr re).samples_with_objects
      = List.range env.sample.length := by
    show buildSamplesWithObjects env re (!env.object_ann.isEmpty) = _
    simp [buildSamplesWithObjects, hempty]
  constructor
  · show (mkDataset env nm cid tr re).samples_with_objects.length = _
    rw [hswo, List.length_range]
  · intro idx h
    have hg : (mkDataset env nm cid tr re).samples_with_objects.get? idx
        = some idx := by
      rw [hswo]
      exact List.get?_range h
    have hs : env.sample.get? idx = some (env.sample.getD idx default) := by
      rw [List.getD_eq_getElem env.sample default h, List.get?_eq_get h,
        List.get_eq_getElem]
    simp only [getitemPure, hg, hs]
    rw [if_pos hha]

/-- Witness for C10: a two-image annotation-free dataset with a configured
transform hook that would replace the image; the raw image is returned. -/
theorem c10_test_split_returns_none_target_witness :
    c10env.object_ann = [] ∧
    (datasetLen (mkDataset c10env nmAll cidOne (some c10tr) true)
        = c10env.sample.length ∧
     ∀ idx, ∀ h : idx < c10env.sample.length,
       getitemPure (mkDataset c10env nmAll cidOne (some c10tr) true) c10env idx
         = some (c10env.imageFor
             ((c10env.sample.getD idx default).key_camera_token), none)) :=
  ⟨rfl,
    c10_test_split_returns_none_target c10env nmAll cidOne (some c10tr) true
      rfl⟩

end NuSeg
